import Mathlib

/-!
Verification of html_to_csv_converter: table location, grid extraction and CSV encoding.

A shallow embedding of `src/main.go`.

* The parsed document (`*html.Node` of `golang.org/x/net/html`) is a finite tree:
  a node carries its `Type`, its `Data` and the ordered list of its children
  (`FirstChild` / `NextSibling` chains become lists).
* Go strings are modelled as Lean strings (sequences of Unicode characters).
* A Go run-time panic (the nil dereference `c1.FirstChild.Data`) is the result `none`.
* The mutable `*CsvContent` of `getTableData` is passed explicitly: grid in, grid out.
-/

namespace HtmlToCsv

/-! ## Data model -/

/-- The `html.NodeType` enumeration. -/
inductive NodeType where
  | ErrorNode
  | TextNode
  | DocumentNode
  | ElementNode
  | CommentNode
  | DoctypeNode
  | RawNode
  deriving DecidableEq, Repr

/-- An `html.Node`: its `Type`, its `Data` (tag name of an element, text of a text or
comment node) and its children from `FirstChild` along `NextSibling`. -/
inductive Node where
  | mk (type : NodeType) (Data : String) (children : List Node)

namespace Node

/-- The field `n.Type`. -/
def type : Node → NodeType
  | mk t _ _ => t

/-- The field `n.Data`. -/
def Data : Node → String
  | mk _ d _ => d

/-- The children of `n`, from `n.FirstChild` along `NextSibling`. -/
def children : Node → List Node
  | mk _ _ cs => cs

end Node

/-- A row of cell texts (`[]string`). -/
abbrev Row := List String

/-- The grid `CsvContent.contents` (`[][]string`). -/
abbrev Grid := List Row

/-- A Go `error` value, identified by its message. -/
structure GoError where
  msg : String
  deriving DecidableEq, Repr

/-- The function `errors.New`. -/
def errors_New (text : String) : GoError := ⟨text⟩

/-! ## `findTable` (main.go 190-200) -/

mutual
/-- The function `findTable`: the node itself when it is an element with data `table`,
otherwise the first hit among the children, otherwise `(n, false)`. -/
def findTable : Node → Node × Bool
  | Node.mk t d cs =>
    if t = NodeType.ElementNode ∧ d = "table" then (Node.mk t d cs, true)
    else
      match findTable.loop cs with
      | some node => (node, true)
      | none => (Node.mk t d cs, false)
/-- The loop `for c := n.FirstChild; c != nil; c = c.NextSibling` of `findTable`:
`some node` when it returns from inside the loop, `none` when the loop runs out. -/
def findTable.loop : List Node → Option Node
  | [] => none
  | c :: cs =>
    match findTable c with
    | (node, true) => some node
    | (_, false) => findTable.loop cs
end

/-! ## `getTableData` (main.go 154-178) -/

/-- The inner loop of `getTableData` (main.go 163-168) over the children `c1` of a
`tr`, with the row built so far: a child whose data is `td` or `th` appends
`c1.FirstChild.Data`, which panics (`none`) when `c1` has no child. -/
def getTableData.row : List Node → Row → Option Row
  | [], row => some row
  | c1 :: rest, row =>
    if c1.Data = "td" ∨ c1.Data = "th" then
      match c1.children with
      | [] => none
      | firstChild :: _ => getTableData.row rest (row ++ [firstChild.Data])
    else getTableData.row rest row

/-- The `if c.Data == "tr"` block of `getTableData` (main.go 161-173) for one child `c`:
the row is built from `c`'s children and appended when `len(row) > 0`. -/
def getTableData.visit (c : Node) (contents : Grid) : Option Grid :=
  if c.Data = "tr" then
    match getTableData.row c.children [] with
    | none => none
    | some row => if row.length > 0 then some (contents ++ [row]) else some contents
  else some contents

mutual
/-- The function `getTableData`, on the contents of `csvContent` before the call;
`none` is a panic. -/
def getTableData : Node → Grid → Option Grid
  | Node.mk t _ cs, contents =>
    if t ≠ NodeType.ElementNode then some contents
    else getTableData.loop cs contents
/-- The loop over the children of `n` in `getTableData`: the `tr` block for the child,
then the recursive call on it. -/
def getTableData.loop : List Node → Grid → Option Grid
  | [], contents => some contents
  | c :: cs, contents =>
    match getTableData.visit c contents with
    | none => none
    | some contents1 =>
      match getTableData c contents1 with
      | none => none
      | some contents2 => getTableData.loop cs contents2
end

/-! ## Document order -/

mutual
/-- The nodes of the tree rooted at `n` in pre-order (document order), `n` first. -/
def preorder : Node → List Node
  | Node.mk t d cs => Node.mk t d cs :: preorderList cs
/-- The nodes of a forest in pre-order. -/
def preorderList : List Node → List Node
  | [] => []
  | c :: cs => preorder c ++ preorderList cs
end

/-- The proper descendants of `n` in pre-order. -/
def descendants (n : Node) : List Node := preorderList n.children

mutual
/-- Only element nodes have children, everywhere in the tree rooted at `n`. -/
def onlyElementsHaveChildren : Node → Bool
  | Node.mk t _ cs => (decide (t = NodeType.ElementNode) || cs.isEmpty) && onlyElementsHaveChildrenList cs
/-- The same for every tree of a forest. -/
def onlyElementsHaveChildrenList : List Node → Bool
  | [] => true
  | c :: cs => onlyElementsHaveChildren c && onlyElementsHaveChildrenList cs
end

/-- An element node with tag `table`. -/
def isTableElement (n : Node) : Bool :=
  decide (n.type = NodeType.ElementNode) && decide (n.Data = "table")

/-- The rows built from the nodes of `ns` in order, one per node; `none` when building
one of them panics. -/
def rowsBuilt : List Node → Option (List Row)
  | [] => some []
  | c :: cs =>
    match getTableData.row c.children [], rowsBuilt cs with
    | some row, some rows => some (row :: rows)
    | _, _ => none

/-- The rows built from the nodes of `ns` with data `tr`, in order, those with no cell
left out. -/
def trRows (ns : List Node) : Option Grid :=
  (rowsBuilt (ns.filter (fun c => decide (c.Data = "tr")))).map
    (fun rows => rows.filter (fun row => decide (row ≠ [])))

/-- The rows, in document order, built from the descendants of `n` with data `tr`,
those with no cell left out. -/
def documentRows (n : Node) : Option Grid := trRows (descendants n)

/-- The cells of a `tr` read off its direct children: for each child with data `td` or
`th`, in child order, the data of that child's first child (`""` stands in where there
is none). -/
def directCells (tr : Node) : Row :=
  (tr.children.filter (fun c1 => decide (c1.Data = "td" ∨ c1.Data = "th"))).map
    (fun c1 => match c1.children with
      | [] => ""
      | firstChild :: _ => firstChild.Data)

/-! ## The CSV writer

`getTableInCsv` drives `csv.NewWriter(&buffer)` of Go's `encoding/csv`, which is not
part of `src/`. -/

/-- Modelled from the spec: the state of `csv.Writer` (package `encoding/csv`, not under
`src/`): the separator `Comma`, the flag `UseCRLF`, and the text written so far to the
underlying in-memory buffer. -/
structure Writer where
  Comma : Char
  UseCRLF : Bool
  w : String

/-- Modelled from the spec: `csv.NewWriter`, which is not under `src/`: separator `,`,
`UseCRLF` off, so that lines end in LF (the spec, 4.3, leaves the choice of terminator
open). -/
def NewWriter (buffer : String) : Writer :=
  { Comma := ',', UseCRLF := false, w := buffer }

/-- Modelled from the spec: `validDelim` of `encoding/csv`, not under `src/`; the
separator may not be NUL, a quote, CR, LF or the replacement character. -/
def validDelim (r : Char) : Bool :=
  r != Char.ofNat 0 && r != '"' && r != '\r' && r != '\n' && r != Char.ofNat 0xFFFD

/-- The error `errInvalidDelim` of `encoding/csv`. -/
def errInvalidDelim : GoError := errors_New "csv: invalid field or comment delimiter"

/-- Modelled from the spec: `unicode.IsSpace`, not under `src/`: the characters with the
Unicode White_Space property. -/
def unicode_IsSpace (r : Char) : Bool :=
  let n := r.toNat
  (0x09 ≤ n && n ≤ 0x0D) || n == 0x20 || n == 0x85 || n == 0xA0 || n == 0x1680 ||
    (0x2000 ≤ n && n ≤ 0x200A) || n == 0x2028 || n == 0x2029 || n == 0x202F ||
    n == 0x205F || n == 0x3000

/-- Modelled from the spec: `(*csv.Writer).fieldNeedsQuotes`, not under `src/`. The spec
(4.3) has a field quoted if it contains a comma, a double quote or a line break; the
library also quotes the field `\.` and a field that starts with a space character, and
never quotes the empty field. -/
def Writer.fieldNeedsQuotes (w : Writer) (field : String) : Bool :=
  if field = "" then false
  else if field = "\\." then true
  else if field.data.any (fun c => c == '\n' || c == '\r' || c == '"' || c == w.Comma) then true
  else
    match field.data with
    | [] => false
    | r1 :: _ => unicode_IsSpace r1

/-- Modelled from the spec: the loop of `(*csv.Writer).Write` (not under `src/`) that
writes the inside of a quoted field, character by character: a double quote is doubled
(spec 4.3), CR is dropped and LF becomes CR LF only under `UseCRLF`, every other
character is copied. -/
def Writer.quotedBody (useCRLF : Bool) : List Char → List Char
  | [] => []
  | c :: rest =>
    if c = '"' then '"' :: '"' :: Writer.quotedBody useCRLF rest
    else if c = '\r' then
      (if useCRLF then Writer.quotedBody useCRLF rest else '\r' :: Writer.quotedBody useCRLF rest)
    else if c = '\n' then
      (if useCRLF then '\r' :: '\n' :: Writer.quotedBody useCRLF rest
       else '\n' :: Writer.quotedBody useCRLF rest)
    else c :: Writer.quotedBody useCRLF rest

/-- Modelled from the spec: the body of the field loop of `(*csv.Writer).Write` (not
under `src/`) after the separator: the field as it is when it needs no quotes,
otherwise between double quotes with its inside escaped. -/
def Writer.writeField (w : Writer) (field : String) : Writer :=
  if !w.fieldNeedsQuotes field then { w with w := w.w ++ field }
  else
    { w with w := ((w.w.push '"') ++ String.mk (Writer.quotedBody w.UseCRLF field.data)).push '"' }

/-- Modelled from the spec: the loop `for n, field := range record` of
`(*csv.Writer).Write` (not under `src/`): the separator before every field but the
first (`n > 0`), then the field. -/
def Writer.writeFields (w : Writer) : Nat → List String → Writer
  | _, [] => w
  | n, field :: rest =>
    let w1 : Writer := if n > 0 then { w with w := w.w.push w.Comma } else w
    Writer.writeFields (w1.writeField field) (n + 1) rest

/-- Modelled from the spec: `(*csv.Writer).Write` (not under `src/`): one record is
written as its fields, separated by `Comma`, and a line terminator; the only error is
an invalid separator, writes to the in-memory buffer do not fail. -/
def Writer.Write (w : Writer) (record : List String) : Writer × Option GoError :=
  if !validDelim w.Comma then (w, some errInvalidDelim)
  else
    let w1 := w.writeFields 0 record
    ({ w1 with w := if w1.UseCRLF then w1.w ++ "\r\n" else w1.w.push '\n' }, none)

/-- Modelled from the spec: `(*csv.Writer).Flush` (not under `src/`): the text written
reaches the buffer. -/
def Writer.Flush (w : Writer) : Writer := w

/-- Modelled from the spec: `(*csv.Writer).Error` (not under `src/`): the error of an
earlier write or flush to the underlying buffer; there is none for an in-memory
buffer. -/
def Writer.Error (_w : Writer) : Option GoError := none

/-! ## `getTableInCsv` (main.go 127-153) and `convertToCsv` (main.go 104-125) -/

/-- The loop `for _, row := range csvContent` of `getTableInCsv`: the writer after the
rows, and the error of the first `Write` that fails. -/
def getTableInCsv.loop (writer : Writer) : Grid → Writer × Option GoError
  | [] => (writer, none)
  | row :: rest =>
    match writer.Write row with
    | (writer1, some err) => (writer1, some err)
    | (writer1, none) => getTableInCsv.loop writer1 rest

/-- The function `getTableInCsv`: the pair `(csvString, err)`. -/
def getTableInCsv (csvContent : Grid) : String × Option GoError :=
  let writer := NewWriter ""
  match getTableInCsv.loop writer csvContent with
  | (_, some err) => ("", some err)
  | (writer1, none) =>
    let writer2 := writer1.Flush
    match writer2.Error with
    | some err => ("", some err)
    | none => (writer2.w, none)

/-- The function `convertToCsv`, over the result of `html.Parse` (package
`golang.org/x/net/html`, taken as a parameter): the pair `(csvString, err)`, or `none`
when `getTableData` panics. -/
def convertToCsv (Parse : String → Except GoError Node) (htmlContent : String) :
    Option (String × Option GoError) :=
  match Parse htmlContent with
  | Except.error err => some ("", some err)
  | Except.ok doc =>
    match findTable doc with
    | (_, false) => some ("", some (errors_New "no table"))
    | (node, true) =>
      match getTableData node [] with
      | none => none
      | some contents => some (getTableInCsv contents)

/-- The text `Write` emits for one field: what `writeField` adds to an empty buffer of
the writer `getTableInCsv` uses. -/
def csvField (field : String) : String := ((NewWriter "").writeField field).w

/-! ## The CSV reader

The repository writes CSV and never reads it; the standard CSV reader of the round-trip
property (spec, 8) is taken to be the reader of the library the writer comes from, Go's
`encoding/csv`, with the settings of `csv.NewReader`. -/

/-- The states of the reader: at the start of a line where a record may begin, at the
start of a field after a comma, inside an unquoted field, inside a quoted field, and
just after a double quote inside a quoted field. -/
inductive ReadState where
  | recordStart
  | fieldStart
  | unquoted
  | quoted
  | quoteInQuoted
  deriving DecidableEq, Repr

/-- The error `csv.ErrBareQuote`. -/
def ErrBareQuote : GoError := errors_New "bare \" in non-quoted-field"

/-- The error `csv.ErrQuote`. -/
def ErrQuote : GoError := errors_New "extraneous or missing \" in quoted-field"

/-- The error `csv.ErrFieldCount`. -/
def ErrFieldCount : GoError := errors_New "wrong number of fields"

/-- Modelled from the spec: the line reading of the standard CSV reader of the
round-trip property (spec, 8), which the repository does not contain; it follows
`(*csv.Reader).readLine` of Go's `encoding/csv`, applied to every line of the text: CR
LF at the end of a line becomes LF, and a CR at the very end of a text that does not end
in LF is dropped. -/
def Reader.normalizeLines : List Char → List Char
  | [] => []
  | c :: cs =>
    if c = '\r' then
      match cs with
      | [] => []
      | c1 :: cs1 =>
        if c1 = '\n' then '\n' :: Reader.normalizeLines cs1
        else '\r' :: Reader.normalizeLines (c1 :: cs1)
    else c :: Reader.normalizeLines cs

/-- Modelled from the spec: the end of `(*csv.Reader).readRecord` (Go's `encoding/csv`,
absent from the repository), with `FieldsPerRecord` starting at 0 as `csv.NewReader`
leaves it: the first record sets the number of fields, and a later record with another
number is the error `ErrFieldCount`. The result is the records and `FieldsPerRecord`
after the record. -/
def Reader.endRecord (record : Row) (records : Grid) (fieldsPerRecord : Nat) :
    Except GoError (Grid × Nat) :=
  if fieldsPerRecord > 0 then
    if record.length ≠ fieldsPerRecord then Except.error ErrFieldCount
    else Except.ok (records ++ [record], fieldsPerRecord)
  else Except.ok (records ++ [record], record.length)

/-- Modelled from the spec: the standard CSV reader of the round-trip property (spec,
8), which the repository does not contain; it follows `(*csv.Reader).readRecord` of Go's
`encoding/csv` as `ReadAll` repeats it, with the settings of `csv.NewReader` (comma
separator, no comment character, `LazyQuotes` and `TrimLeadingSpace` off), on the text
after `normalizeLines`. Arguments: the state, the field and the record read so far, the
records already complete, `FieldsPerRecord`, the input left. A line with nothing on it
is skipped where a record may begin; a record ends at LF outside quotes or at the end of
the text; fields are separated by commas outside quotes; a field that starts with a
double quote runs to the closing double quote with every doubled quote read as one. A
quote inside an unquoted field is `ErrBareQuote`; a character other than comma, LF or
quote after a closing quote, and an unclosed quoted field, are `ErrQuote`. -/
def Reader.readRecords :
    ReadState → List Char → Row → Grid → Nat → List Char → Except GoError Grid
  | ReadState.recordStart, _, _, records, _, [] => Except.ok records
  | ReadState.fieldStart, _, record, records, n, [] =>
    (Reader.endRecord (record ++ [""]) records n).map Prod.fst
  | ReadState.unquoted, field, record, records, n, [] =>
    (Reader.endRecord (record ++ [String.mk field]) records n).map Prod.fst
  | ReadState.quoted, _, _, _, _, [] => Except.error ErrQuote
  | ReadState.quoteInQuoted, field, record, records, n, [] =>
    (Reader.endRecord (record ++ [String.mk field]) records n).map Prod.fst
  | ReadState.recordStart, _, _, records, n, c :: cs =>
    if c = '\n' then Reader.readRecords ReadState.recordStart [] [] records n cs
    else if c = '"' then Reader.readRecords ReadState.quoted [] [] records n cs
    else if c = ',' then Reader.readRecords ReadState.fieldStart [] [""] records n cs
    else Reader.readRecords ReadState.unquoted [c] [] records n cs
  | ReadState.fieldStart, _, record, records, n, c :: cs =>
    if c = '"' then Reader.readRecords ReadState.quoted [] record records n cs
    else if c = ',' then
      Reader.readRecords ReadState.fieldStart [] (record ++ [""]) records n cs
    else if c = '\n' then
      match Reader.endRecord (record ++ [""]) records n with
      | Except.error err => Except.error err
      | Except.ok (records1, n1) => Reader.readRecords ReadState.recordStart [] [] records1 n1 cs
    else Reader.readRecords ReadState.unquoted [c] record records n cs
  | ReadState.unquoted, field, record, records, n, c :: cs =>
    if c = ',' then
      Reader.readRecords ReadState.fieldStart [] (record ++ [String.mk field]) records n cs
    else if c = '\n' then
      match Reader.endRecord (record ++ [String.mk field]) records n with
      | Except.error err => Except.error err
      | Except.ok (records1, n1) => Reader.readRecords ReadState.recordStart [] [] records1 n1 cs
    else if c = '"' then Except.error ErrBareQuote
    else Reader.readRecords ReadState.unquoted (field ++ [c]) record records n cs
  | ReadState.quoted, field, record, records, n, c :: cs =>
    if c = '"' then Reader.readRecords ReadState.quoteInQuoted field record records n cs
    else Reader.readRecords ReadState.quoted (field ++ [c]) record records n cs
  | ReadState.quoteInQuoted, field, record, records, n, c :: cs =>
    if c = '"' then Reader.readRecords ReadState.quoted (field ++ ['"']) record records n cs
    else if c = ',' then
      Reader.readRecords ReadState.fieldStart [] (record ++ [String.mk field]) records n cs
    else if c = '\n' then
      match Reader.endRecord (record ++ [String.mk field]) records n with
      | Except.error err => Except.error err
      | Except.ok (records1, n1) => Reader.readRecords ReadState.recordStart [] [] records1 n1 cs
    else Except.error ErrQuote

/-- Modelled from the spec: the standard CSV reader of the round-trip property (spec,
8), absent from the repository; it follows `(*csv.Reader).ReadAll` of Go's
`encoding/csv` on a reader of `csv.NewReader`: the records of the text, or the first
error. -/
def Reader.ReadAll (text : String) : Except GoError Grid :=
  Reader.readRecords ReadState.recordStart [] [] [] 0 (Reader.normalizeLines text.data)

/-- The characters of a cell have no CR immediately followed by LF. -/
def crlfFree : List Char → Bool
  | [] => true
  | c :: cs =>
    (match cs with
     | [] => true
     | c1 :: _ => !(c == '\r' && c1 == '\n')) && crlfFree cs

/-- Equality of two results of the reader is decidable. -/
instance decEqReadResult : DecidableEq (Except GoError Grid)
  | Except.ok a, Except.ok b =>
    if h : a = b then isTrue (congrArg Except.ok h)
    else isFalse (fun h1 => h (Except.ok.inj h1))
  | Except.error a, Except.error b =>
    if h : a = b then isTrue (congrArg Except.error h)
    else isFalse (fun h1 => h (Except.error.inj h1))
  | Except.ok _, Except.error _ => isFalse (fun h => Except.noConfusion h)
  | Except.error _, Except.ok _ => isFalse (fun h => Except.noConfusion h)

/-- A cell has a comma, a double quote or a line break (CR or LF) in it. -/
def hasSpecial (field : String) : Bool :=
  field.data.any (fun c => c == ',' || c == '"' || c == '\n' || c == '\r')

/-- The text of a cell with every double quote doubled and all else unchanged. -/
def doubleQuotes (field : String) : String :=
  String.mk (field.data.flatMap (fun c => if c = '"' then ['"', '"'] else [c]))

/-- The characters `Write` emits for the fields of a record after the first: each
behind a comma. -/
def fieldsTailChars (fields : Row) : List Char :=
  fields.flatMap (fun f => ',' :: (csvField f).data)

/-- The characters `Write` emits for one record: the fields, separated by commas, and
LF. -/
def recordChars : Row → List Char
  | [] => ['\n']
  | f :: fs => (csvField f).data ++ fieldsTailChars fs ++ ['\n']

/-- The characters `getTableInCsv` emits for a grid: its records one after the other. -/
def gridChars (g : Grid) : List Char := g.flatMap recordChars

/-- A cell that `Write` copies as it is: no comma, double quote or line break in it, no
space character at its start, and not the two characters `\.`. -/
def plainCell (field : String) : Bool :=
  !hasSpecial field && decide (field ≠ "\\.") &&
    (match field.data with
     | [] => true
     | r1 :: _ => !unicode_IsSpace r1)

/-- A cell has neither LF nor CR in it. -/
def noLineBreak (field : String) : Bool :=
  !field.data.any (fun c => c == '\n' || c == '\r')

/-! ## Sample trees -/

/-- An element node with the given tag and children. -/
def element (tag : String) (children : List Node) : Node :=
  Node.mk NodeType.ElementNode tag children

/-- A text node. -/
def text (data : String) : Node := Node.mk NodeType.TextNode data []

/-- A comment node. -/
def comment (data : String) : Node := Node.mk NodeType.CommentNode data []

/-- The document node over an `html` element with an empty `head` and the given body. -/
def document (body : List Node) : Node :=
  Node.mk NodeType.DocumentNode "" [element "html" [element "head" [], element "body" body]]

/-- The table `<table><thead><tr><th>1</th></tr></thead><tbody><tr><td>2</td></tr>
<tr><td>3</td></tr></tbody></table>`. -/
def nestedRowsTable : Node :=
  element "table"
    [element "thead" [element "tr" [element "th" [text "1"]]],
     element "tbody"
       [element "tr" [element "td" [text "2"]], text "\n", element "tr" [element "td" [text "3"]]]]

/-- A `tr` with a `td` of two children, a text child, a `span` holding a deeper `td`,
and a `th`. -/
def mixedRow : Node :=
  element "tr"
    [element "td" [text "x", element "b" [text "y"]], text " ",
     element "span" [element "td" [text "deep"]], element "th" [text "z"]]

/-- The table `<table><tr><td></td></tr></table>` as parsed: the `td` has no child. -/
def emptyCellTable : Node :=
  element "table" [element "tbody" [element "tr" [element "td" []]]]

/-- The table `<table><tr></tr><tr><td>x</td></tr></table>` as parsed. -/
def emptyRowTable : Node :=
  element "table" [element "tbody" [element "tr" [], element "tr" [element "td" [text "x"]]]]

/-- A document without a table element: `<p>table</p><!--table-->`. -/
def noTableDoc : Node := document [element "p" [text "table"], comment "table"]

/-- The first table of `twoTablesDoc`. -/
def firstTable : Node := element "table" [element "tbody" [element "tr" [element "td" [text "a"]]]]

/-- A document with two sibling tables, `a` in the first and `b` in the second. -/
def twoTablesDoc : Node :=
  document
    [firstTable, element "table" [element "tbody" [element "tr" [element "td" [text "b"]]]]]

/-- The table `<table><tr><!--td--><td>x</td></tr></table>` as parsed: the first child
of the `tr` is a comment node with data `td`, which has no child. -/
def commentCellTable : Node :=
  element "table" [element "tbody" [element "tr" [comment "td", element "td" [text "x"]]]]

/-- The row `<tr><td><b>Name</b></td><td>a<b>c</b></td></tr>`. -/
def markupRow : Node :=
  element "tr"
    [element "td" [element "b" [text "Name"]],
     element "td" [text "a", element "b" [text "c"]]]

/-- A table with an empty `tr` and a `tr` with only a text child. -/
def emptyRowsTable : Node :=
  element "table" [element "tbody" [element "tr" [], element "tr" [text "x"]]]

/-- A document whose first table is `emptyRowsTable`, followed by a second table with a
cell. -/
def emptyRowsDoc : Node :=
  document
    [emptyRowsTable, element "table" [element "tbody" [element "tr" [element "td" [text "b"]]]]]

/-- The table `<table><tr><td><!----></td></tr></table>` as parsed: the only child of
the `td` is a comment node with empty data. -/
def emptyCommentCellTable : Node :=
  element "table" [element "tbody" [element "tr" [element "td" [comment ""]]]]

/-! ## The handler of `POST /api/html` (main.go 50-93) -/

/-- The object passed to `c.JSON`: the map `gin.H{"error": msg}` or the CSV string. -/
inductive Payload where
  | error (msg : String)
  | csv (csvString : String)
  deriving DecidableEq, Repr

/-- One call `c.JSON(status, obj)`. -/
structure Response where
  status : Nat
  obj : Payload
  deriving DecidableEq, Repr

/-- The constant `http.StatusBadRequest`. -/
def StatusBadRequest : Nat := 400

/-- The constant `http.StatusOK`. -/
def StatusOK : Nat := 200

/-- Modelled from the spec: `strings.TrimPrefix` (Go library, not under `src/`), by
which the boundary strips a literal `content=` from the front of the body (spec, 6); a
string without that front is returned as it is. -/
def strings_TrimPrefix (s front : String) : String :=
  if front.data.isPrefixOf s.data then String.mk (s.data.drop front.data.length) else s

/-- The function `isValidHTML` (main.go 98-102): the error of `html.Parse`, `none` for
`nil`. -/
def isValidHTML (Parse : String → Except GoError Node) (htmlContent : String) :
    Option GoError :=
  match Parse htmlContent with
  | Except.error err => some err
  | Except.ok _ => none

/-- The handler of `POST /api/html` (main.go 50-93) as the list of its `c.JSON` calls in
order, over the result of reading the request body (`ioutil.ReadAll`), `html.Parse` and
`url.QueryUnescape`; `none` when `convertToCsv` panics. The `fmt.Println` lines write to
the log only. -/
def apiHtmlHandler (Parse : String → Except GoError Node)
    (QueryUnescape : String → Except GoError String) (readAll : Except GoError String) :
    Option (List Response) :=
  match readAll with
  | Except.error _ => some [⟨StatusBadRequest, Payload.error "Cannot read request body"⟩]
  | Except.ok bodyBytes =>
    let content := strings_TrimPrefix bodyBytes "content="
    let written : List Response :=
      match isValidHTML Parse content with
      | some err => [⟨StatusBadRequest, Payload.error err.msg⟩]
      | none => []
    match QueryUnescape content with
    | Except.error err => some (written ++ [⟨StatusBadRequest, Payload.error err.msg⟩])
    | Except.ok content1 =>
      match convertToCsv Parse content1 with
      | none => none
      | some (csvString, err) =>
        let written1 : List Response :=
          match err with
          | some e => written ++ [⟨StatusBadRequest, Payload.error e.msg⟩]
          | none => written
        some (written1 ++ [⟨StatusOK, Payload.csv csvString⟩])

/-! ## Lemmas on the tree walk -/

theorem trRows_nil : trRows [] = some [] := rfl

theorem trRows_cons (c : Node) (l : List Node) :
    trRows (c :: l) =
      match getTableData.visit c [], trRows l with
      | some a, some b => some (a ++ b)
      | _, _ => none := by
  unfold trRows getTableData.visit
  by_cases h : c.Data = "tr"
  · simp only [List.filter_cons, h, decide_True, if_true, rowsBuilt]
    cases hr : getTableData.row c.children [] with
    | none => simp
    | some row =>
      cases hl : rowsBuilt (List.filter (fun c => decide (c.Data = "tr")) l) with
      | none => cases row <;> simp
      | some rows => cases row <;> simp
  · simp only [List.filter_cons, h, decide_False, if_false]
    cases hl : rowsBuilt (List.filter (fun c => decide (c.Data = "tr")) l) <;> simp [hl]

theorem trRows_append (a b : List Node) :
    trRows (a ++ b) =
      match trRows a, trRows b with
      | some x, some y => some (x ++ y)
      | _, _ => none := by
  induction a with
  | nil => simp only [List.nil_append, trRows_nil]; cases trRows b <;> simp
  | cons c l ih =>
    rw [List.cons_append, trRows_cons, trRows_cons, ih]
    cases getTableData.visit c [] <;> cases trRows l <;> cases trRows b <;> simp

theorem visit_append (c : Node) (g : Grid) :
    getTableData.visit c g = (getTableData.visit c []).map (fun rows => g ++ rows) := by
  unfold getTableData.visit
  by_cases h : c.Data = "tr"
  · simp only [h, if_true]
    cases getTableData.row c.children [] with
    | none => rfl
    | some row => cases row <;> simp
  · simp [h]

mutual
theorem getTableData_eq_trRows : ∀ (n : Node) (g : Grid), onlyElementsHaveChildren n = true →
    getTableData n g = (trRows (descendants n)).map (fun rows => g ++ rows)
  | Node.mk t d cs, g, h => by
    unfold onlyElementsHaveChildren at h
    simp only [Bool.and_eq_true, Bool.or_eq_true, decide_eq_true_eq, List.isEmpty_iff] at h
    unfold getTableData
    by_cases ht : t = NodeType.ElementNode
    · simp only [ht, ne_eq, not_true_eq_false, if_false, descendants, Node.children]
      exact getTableData_loop_eq_trRows cs g h.2
    · have hcs : cs = [] := h.1.resolve_left ht
      subst hcs
      simp [ht, descendants, Node.children, preorderList, trRows_nil]
theorem getTableData_loop_eq_trRows : ∀ (cs : List Node) (g : Grid),
    onlyElementsHaveChildrenList cs = true →
    getTableData.loop cs g = (trRows (preorderList cs)).map (fun rows => g ++ rows)
  | [], g, _ => by simp [getTableData.loop, preorderList, trRows_nil]
  | c :: cs, g, h => by
    unfold onlyElementsHaveChildrenList at h
    simp only [Bool.and_eq_true] at h
    have hc := fun g1 => getTableData_eq_trRows c g1 h.1
    have hcs := fun g2 => getTableData_loop_eq_trRows cs g2 h.2
    have hpre : preorderList (c :: cs) = c :: (descendants c ++ preorderList cs) := by
      cases c with
      | mk t d l => simp [preorderList, preorder, descendants, Node.children]
    rw [hpre, trRows_cons, trRows_append]
    unfold getTableData.loop
    rw [visit_append c g]
    cases hv : getTableData.visit c [] with
    | none => simp
    | some a =>
      simp only [Option.map_some']
      rw [hc]
      cases hd : trRows (descendants c) with
      | none => simp
      | some x =>
        simp only [Option.map_some']
        rw [hcs]
        cases hl : trRows (preorderList cs) with
        | none => simp
        | some y => simp [List.append_assoc]
end

theorem children_mk (t : NodeType) (d : String) (cs : List Node) :
    (Node.mk t d cs).children = cs := rfl

/-- The cells read off a list of children, as `directCells` does. -/
theorem row_eq_cells : ∀ (cs : List Node) (row : Row),
    (∀ c1 ∈ cs, (c1.Data = "td" ∨ c1.Data = "th") → c1.children ≠ []) →
    getTableData.row cs row = some (row ++ directCells (Node.mk NodeType.ElementNode "tr" cs))
  | [], row, _ => by simp [getTableData.row, directCells, children_mk]
  | c1 :: rest, row, h => by
    have hrest : ∀ c ∈ rest, (c.Data = "td" ∨ c.Data = "th") → c.children ≠ [] :=
      fun c hc => h c (List.mem_cons_of_mem _ hc)
    unfold getTableData.row
    by_cases hc : c1.Data = "td" ∨ c1.Data = "th"
    · have hne := h c1 (List.mem_cons_self _ _) hc
      rw [if_pos hc]
      cases hch : c1.children with
      | nil => exact absurd hch hne
      | cons fc tl =>
        simp only []
        rw [row_eq_cells rest _ hrest]
        simp [directCells, children_mk, List.filter_cons, hc, hch]
    · rw [if_neg hc, row_eq_cells rest _ hrest]
      simp [directCells, children_mk, List.filter_cons, hc]

theorem directCells_children (c : Node) :
    directCells (Node.mk NodeType.ElementNode "tr" c.children) = directCells c := by
  cases c; rfl

theorem rowsBuilt_eq_map : ∀ (ns : List Node),
    (∀ c ∈ ns, ∀ c1 ∈ c.children, (c1.Data = "td" ∨ c1.Data = "th") → c1.children ≠ []) →
    rowsBuilt ns = some (ns.map directCells)
  | [], _ => rfl
  | c :: cs, h => by
    unfold rowsBuilt
    rw [row_eq_cells c.children [] (h c (List.mem_cons_self _ _)),
      rowsBuilt_eq_map cs (fun c' hc' => h c' (List.mem_cons_of_mem _ hc'))]
    simp [directCells_children]

theorem visit_nonempty (c : Node) (g g1 : Grid) (hg : ∀ r ∈ g, r ≠ [])
    (h : getTableData.visit c g = some g1) : ∀ r ∈ g1, r ≠ [] := by
  unfold getTableData.visit at h
  by_cases hc : c.Data = "tr"
  · rw [if_pos hc] at h
    cases hr : getTableData.row c.children [] with
    | none => rw [hr] at h; cases h
    | some row =>
      rw [hr] at h
      by_cases hl : row.length > 0
      · simp only [hl, if_true, Option.some.injEq] at h
        subst h
        intro r hr'
        rcases List.mem_append.mp hr' with h1 | h1
        · exact hg r h1
        · simp only [List.mem_singleton] at h1
          subst h1
          exact List.ne_nil_of_length_pos hl
      · simp only [hl, if_false, Option.some.injEq] at h
        subst h
        exact hg
  · rw [if_neg hc] at h
    cases h
    exact hg

mutual
theorem getTableData_nonempty : ∀ (n : Node) (g g1 : Grid), (∀ r ∈ g, r ≠ []) →
    getTableData n g = some g1 → ∀ r ∈ g1, r ≠ []
  | Node.mk t d cs, g, g1, hg, h => by
    unfold getTableData at h
    by_cases ht : t = NodeType.ElementNode
    · simp only [ht, ne_eq, not_true_eq_false, if_false] at h
      exact getTableData_loop_nonempty cs g g1 hg h
    · simp only [ne_eq, ht, not_false_eq_true, if_true, Option.some.injEq] at h
      subst h
      exact hg
theorem getTableData_loop_nonempty : ∀ (cs : List Node) (g g1 : Grid), (∀ r ∈ g, r ≠ []) →
    getTableData.loop cs g = some g1 → ∀ r ∈ g1, r ≠ []
  | [], g, g1, hg, h => by
    simp only [getTableData.loop, Option.some.injEq] at h
    subst h
    exact hg
  | c :: cs, g, g1, hg, h => by
    unfold getTableData.loop at h
    cases hv : getTableData.visit c g with
    | none => rw [hv] at h; cases h
    | some a =>
      rw [hv] at h
      simp only [] at h
      cases hd : getTableData c a with
      | none => rw [hd] at h; cases h
      | some b =>
        rw [hd] at h
        simp only [] at h
        exact getTableData_loop_nonempty cs b g1
          (getTableData_nonempty c a b (visit_nonempty c g a hg hv) hd) h
end

mutual
theorem findTable_eq_find : ∀ (n : Node),
    findTable n =
      match (preorder n).find? isTableElement with
      | some m => (m, true)
      | none => (n, false)
  | Node.mk t d cs => by
    unfold findTable preorder
    by_cases h : t = NodeType.ElementNode ∧ d = "table"
    · simp [h, List.find?_cons, isTableElement, Node.type, Node.Data]
    · have hf : isTableElement (Node.mk t d cs) = false := by
        simpa [isTableElement, Node.type, Node.Data] using h
      rw [if_neg h, List.find?_cons, hf, findTable_loop_eq_find cs]
theorem findTable_loop_eq_find : ∀ (cs : List Node),
    findTable.loop cs = (preorderList cs).find? isTableElement
  | [] => rfl
  | c :: cs => by
    unfold findTable.loop preorderList
    rw [List.find?_append, findTable_eq_find c, findTable_loop_eq_find cs]
    cases List.find? isTableElement (preorder c) <;> simp
end


/-! ## Lemmas on the CSV writer -/

theorem writeField_std (buf field : String) :
    Writer.writeField ⟨',', false, buf⟩ field = ⟨',', false, buf ++ csvField field⟩ := by
  unfold csvField NewWriter Writer.writeField
  have hq : Writer.fieldNeedsQuotes ⟨',', false, buf⟩ field =
      Writer.fieldNeedsQuotes ⟨',', false, ""⟩ field := rfl
  rw [hq]
  cases Writer.fieldNeedsQuotes ⟨',', false, ""⟩ field
  · simp
  · simp only [Bool.not_true, Bool.false_eq_true, if_false, Writer.mk.injEq, true_and]
    apply String.ext
    simp [String.data_append, String.data_push]

theorem writeFields_succ : ∀ (row : Row) (buf : String) (n : Nat),
    Writer.writeFields ⟨',', false, buf⟩ (n + 1) row =
      ⟨',', false, buf ++ String.mk (fieldsTailChars row)⟩
  | [], buf, n => by
    simp only [Writer.writeFields, fieldsTailChars, List.flatMap_nil, Writer.mk.injEq, true_and]
    apply String.ext
    simp [String.data_append]
  | f :: fs, buf, n => by
    unfold Writer.writeFields
    simp only [Nat.succ_pos, gt_iff_lt, if_true, Nat.lt_add_left_iff_pos, Nat.zero_lt_succ]
    rw [writeField_std, writeFields_succ fs]
    simp only [Writer.mk.injEq, true_and]
    apply String.ext
    simp [fieldsTailChars, String.data_append, String.data_push, List.flatMap_cons]

theorem write_std (row : Row) (buf : String) :
    Writer.Write ⟨',', false, buf⟩ row =
      (⟨',', false, buf ++ String.mk (recordChars row)⟩, none) := by
  have hv : validDelim ',' = true := by decide
  unfold Writer.Write
  simp only [hv, Bool.not_true, Bool.false_eq_true, if_false]
  cases row with
  | nil =>
    simp only [Writer.writeFields, recordChars, Prod.mk.injEq, Writer.mk.injEq, true_and, and_true]
    apply String.ext
    simp [String.data_append, String.data_push]
  | cons f fs =>
    unfold Writer.writeFields
    simp only [gt_iff_lt, lt_self_iff_false, if_false, Nat.zero_add]
    rw [writeField_std, writeFields_succ fs]
    simp only [Bool.false_eq_true, if_false, Prod.mk.injEq, Writer.mk.injEq, true_and, and_true]
    apply String.ext
    simp [recordChars, String.data_append, String.data_push]

theorem loop_std : ∀ (g : Grid) (buf : String),
    getTableInCsv.loop ⟨',', false, buf⟩ g =
      (⟨',', false, buf ++ String.mk (gridChars g)⟩, none)
  | [], buf => by
    simp only [getTableInCsv.loop, gridChars, List.flatMap_nil, Prod.mk.injEq, Writer.mk.injEq,
      true_and, and_true]
    apply String.ext
    simp [String.data_append]
  | row :: rest, buf => by
    unfold getTableInCsv.loop
    rw [write_std]
    simp only []
    rw [loop_std rest]
    simp only [Prod.mk.injEq, Writer.mk.injEq, true_and, and_true]
    apply String.ext
    simp [gridChars, String.data_append, List.flatMap_cons]

theorem getTableInCsv_eq_gridChars (g : Grid) :
    getTableInCsv g = (String.mk (gridChars g), none) := by
  unfold getTableInCsv NewWriter
  simp only [loop_std, Writer.Flush, Writer.Error, Prod.mk.injEq, and_true]
  apply String.ext
  simp [String.data_append]

theorem intercalate_go_data : ∀ (fs : List String) (acc : String),
    (String.intercalate.go acc "," fs).data =
      acc.data ++ fs.flatMap (fun f => ',' :: f.data)
  | [], acc => by simp [String.intercalate.go]
  | f :: fs, acc => by
    simp [String.intercalate.go, intercalate_go_data fs, String.data_append, List.flatMap_cons]

theorem recordChars_eq_intercalate (row : Row) :
    recordChars row = (",".intercalate (row.map csvField) ++ "\n").data := by
  cases row with
  | nil => simp [recordChars, String.intercalate, String.data_append]
  | cons f fs =>
    simp [recordChars, String.intercalate, String.data_append, intercalate_go_data,
      fieldsTailChars, List.flatMap_map]

theorem getTableInCsv_eq_join (g : Grid) :
    getTableInCsv g =
      (String.join (g.map (fun row => ",".intercalate (row.map csvField) ++ "\n")), none) := by
  rw [getTableInCsv_eq_gridChars]
  simp only [Prod.mk.injEq, and_true]
  apply String.ext
  simp only [String.data_join, gridChars, List.map_map]
  induction g with
  | nil => rfl
  | cons row rest ih =>
    simp only [List.flatMap_cons, List.map_cons, List.flatten_cons, Function.comp, ih,
      recordChars_eq_intercalate]

theorem needsQuotes_of_hasSpecial (field : String) (h : hasSpecial field = true) :
    Writer.fieldNeedsQuotes ⟨',', false, ""⟩ field = true := by
  unfold hasSpecial at h
  have hne : field ≠ "" := by
    intro he
    subst he
    simp at h
  have hany : field.data.any (fun c => c == '\n' || c == '\r' || c == '"' || c == ',') = true := by
    rw [List.any_eq_true] at h ⊢
    obtain ⟨c, hc, hp⟩ := h
    refine ⟨c, hc, ?_⟩
    simp only [Bool.or_eq_true, beq_iff_eq] at hp ⊢
    tauto
  unfold Writer.fieldNeedsQuotes
  rw [if_neg hne]
  by_cases hd : field = "\\."
  · rw [if_pos hd]
  · rw [if_neg hd, if_pos hany]

theorem needsQuotes_of_plainCell (field : String) (h : plainCell field = true) :
    Writer.fieldNeedsQuotes ⟨',', false, ""⟩ field = false := by
  unfold plainCell at h
  simp only [Bool.and_eq_true, Bool.not_eq_true', decide_eq_true_eq] at h
  obtain ⟨⟨hs, hd⟩, hsp⟩ := h
  have hany : ¬ field.data.any (fun c => c == '\n' || c == '\r' || c == '"' || c == ',') = true := by
    intro ha
    unfold hasSpecial at hs
    rw [List.any_eq_true] at ha
    obtain ⟨c, hc, hp⟩ := ha
    have : field.data.any (fun c => c == ',' || c == '"' || c == '\n' || c == '\r') = true := by
      rw [List.any_eq_true]
      refine ⟨c, hc, ?_⟩
      simp only [Bool.or_eq_true, beq_iff_eq] at hp ⊢
      tauto
    rw [this] at hs
    cases hs
  unfold Writer.fieldNeedsQuotes
  by_cases he : field = ""
  · rw [if_pos he]
  · rw [if_neg he, if_neg hd, if_neg hany]
    cases hdata : field.data with
    | nil => rfl
    | cons r1 rest =>
      rw [hdata] at hsp
      simpa using hsp

theorem csvField_of_not_needsQuotes (field : String)
    (h : Writer.fieldNeedsQuotes ⟨',', false, ""⟩ field = false) : csvField field = field := by
  unfold csvField NewWriter Writer.writeField
  rw [h]
  apply String.ext
  simp [String.data_append]

theorem csvField_of_needsQuotes (field : String)
    (h : Writer.fieldNeedsQuotes ⟨',', false, ""⟩ field = true) :
    (csvField field).data = '"' :: (Writer.quotedBody false field.data ++ ['"']) := by
  unfold csvField NewWriter Writer.writeField
  rw [h]
  simp [String.data_append, String.data_push]

theorem quotedBody_cons (c : Char) (rest : List Char) :
    Writer.quotedBody false (c :: rest) =
      (if c = '"' then ['"', '"'] else [c]) ++ Writer.quotedBody false rest := by
  rw [Writer.quotedBody]
  by_cases h1 : c = '"'
  · simp [h1]
  · by_cases h2 : c = '\r'
    · simp [h2]
    · by_cases h3 : c = '\n'
      · simp [h3]
      · simp [h1, h2, h3]

theorem quotedBody_eq_flatMap : ∀ (l : List Char),
    Writer.quotedBody false l = l.flatMap (fun c => if c = '"' then ['"', '"'] else [c])
  | [] => rfl
  | c :: rest => by
    rw [quotedBody_cons, quotedBody_eq_flatMap rest, List.flatMap_cons]

theorem csvField_of_hasSpecial (field : String) (h : hasSpecial field = true) :
    csvField field = "\"" ++ doubleQuotes field ++ "\"" := by
  apply String.ext
  rw [csvField_of_needsQuotes field (needsQuotes_of_hasSpecial field h), quotedBody_eq_flatMap]
  simp [doubleQuotes, String.data_append]

/-! ## Lemmas on the reader -/

theorem no_special_of_not_needsQuotes (field : String)
    (h : Writer.fieldNeedsQuotes ⟨',', false, ""⟩ field = false) :
    ∀ c ∈ field.data, c ≠ ',' ∧ c ≠ '\n' ∧ c ≠ '"' ∧ c ≠ '\r' := by
  intro c hc
  unfold Writer.fieldNeedsQuotes at h
  by_cases he : field = ""
  · subst he
    simp at hc
  · rw [if_neg he] at h
    by_cases hd : field = "\\."
    · rw [if_pos hd] at h
      cases h
    · rw [if_neg hd] at h
      by_cases hany :
          field.data.any (fun c => c == '\n' || c == '\r' || c == '"' || c == ',') = true
      · rw [if_pos hany] at h
        cases h
      · rw [List.any_eq_true] at hany
        refine ⟨?_, ?_, ?_, ?_⟩ <;> intro hcc <;> apply hany <;> refine ⟨c, hc, ?_⟩ <;>
          simp [hcc]

theorem read_unquoted_run (record : Row) (records : Grid) (n : Nat) (tl : List Char) :
    ∀ (body field : List Char), (∀ c ∈ body, c ≠ ',' ∧ c ≠ '\n' ∧ c ≠ '"' ∧ c ≠ '\r') →
      Reader.readRecords ReadState.unquoted field record records n (body ++ tl) =
        Reader.readRecords ReadState.unquoted (field ++ body) record records n tl
  | [], field, _ => by simp
  | c :: body, field, h => by
    obtain ⟨h1, h2, h3, _⟩ := h c (List.mem_cons_self _ _)
    rw [List.cons_append, Reader.readRecords, if_neg h1, if_neg h2, if_neg h3,
      read_unquoted_run record records n tl body (field ++ [c])
        (fun c' hc' => h c' (List.mem_cons_of_mem _ hc'))]
    simp

theorem read_quoted_run (record : Row) (records : Grid) (n : Nat) (tl : List Char) :
    ∀ (body field : List Char),
      Reader.readRecords ReadState.quoted field record records n
          (Writer.quotedBody false body ++ '"' :: tl) =
        Reader.readRecords ReadState.quoteInQuoted (field ++ body) record records n tl
  | [], field => by simp [Writer.quotedBody, Reader.readRecords]
  | c :: body, field => by
    rw [quotedBody_cons]
    by_cases h1 : c = '"'
    · subst h1
      simp only [if_true, List.cons_append, List.nil_append, List.append_assoc]
      rw [Reader.readRecords, if_pos rfl, Reader.readRecords, if_pos rfl,
        read_quoted_run record records n tl body]
      simp
    · simp only [h1, if_false, List.cons_append, List.nil_append, List.append_assoc]
      rw [Reader.readRecords, if_neg h1, read_quoted_run record records n tl body]
      simp

/-- After the text of a field and a terminator `t`, the reader has added the field to
the record; at LF the record is checked and added and reading goes on at the start of the
next line. -/
theorem read_field (field : String) (record : Row) (records : Grid) (n : Nat) (t : Char)
    (ht : t = ',' ∨ t = '\n') (rest : List Char) :
    Reader.readRecords ReadState.fieldStart [] record records n
        ((csvField field).data ++ t :: rest) =
      if t = ',' then
        Reader.readRecords ReadState.fieldStart [] (record ++ [field]) records n rest
      else
        match Reader.endRecord (record ++ [field]) records n with
        | Except.error err => Except.error err
        | Except.ok (records1, n1) =>
          Reader.readRecords ReadState.recordStart [] [] records1 n1 rest := by
  have ht1 : t ≠ '"' := by rcases ht with h | h <;> subst h <;> decide
  have hterm : ∀ (st : ReadState) (acc : List Char),
      st = ReadState.unquoted ∨ st = ReadState.quoteInQuoted →
      Reader.readRecords st acc record records n (t :: rest) =
        if t = ',' then
          Reader.readRecords ReadState.fieldStart [] (record ++ [String.mk acc]) records n rest
        else
          match Reader.endRecord (record ++ [String.mk acc]) records n with
          | Except.error err => Except.error err
          | Except.ok (records1, n1) =>
            Reader.readRecords ReadState.recordStart [] [] records1 n1 rest := by
    intro st acc hst
    rcases hst with hst | hst <;> subst hst <;> rcases ht with h | h <;> subst h <;>
      simp [Reader.readRecords]
  cases hq : Writer.fieldNeedsQuotes ⟨',', false, ""⟩ field with
  | false =>
    rw [csvField_of_not_needsQuotes field hq]
    have hns := no_special_of_not_needsQuotes field hq
    cases hdata : field.data with
    | nil =>
      have hf : field = "" := String.ext hdata
      subst hf
      rcases ht with h | h <;> subst h <;> simp [Reader.readRecords]
    | cons c cs =>
      rw [hdata] at hns
      obtain ⟨h1, h2, h3, _⟩ := hns c (List.mem_cons_self _ _)
      have hf : String.mk ([c] ++ cs) = field := String.ext (by simp [hdata])
      rw [List.cons_append, Reader.readRecords, if_neg h3, if_neg h1, if_neg h2,
        read_unquoted_run record records n (t :: rest) cs [c]
          (fun c' hc' => hns c' (List.mem_cons_of_mem _ hc')),
        hterm _ _ (Or.inl rfl), hf]
  | true =>
    have hf : String.mk ([] ++ field.data) = field := String.ext (by simp)
    rw [csvField_of_needsQuotes field hq, List.cons_append, List.append_assoc,
      List.singleton_append, Reader.readRecords, if_pos rfl,
      read_quoted_run record records n (t :: rest) field.data [], hterm _ _ (Or.inr rfl), hf]

theorem read_fields_tail (records : Grid) (n : Nat) (rest : List Char) :
    ∀ (fs : Row) (f : String) (record : Row),
      Reader.readRecords ReadState.fieldStart [] record records n
          ((csvField f).data ++ fieldsTailChars fs ++ '\n' :: rest) =
        match Reader.endRecord (record ++ f :: fs) records n with
        | Except.error err => Except.error err
        | Except.ok (records1, n1) =>
          Reader.readRecords ReadState.recordStart [] [] records1 n1 rest
  | [], f, record => by
    have h := read_field f record records n '\n' (Or.inr rfl) rest
    simpa [fieldsTailChars] using h
  | f1 :: fs, f, record => by
    have h := read_field f record records n ','
      (Or.inl rfl) ((csvField f1).data ++ fieldsTailChars fs ++ '\n' :: rest)
    have ih := read_fields_tail records n rest fs f1 (record ++ [f])
    simp only [if_true] at h
    simp only [fieldsTailChars, List.flatMap_cons, List.append_assoc, List.cons_append] at h ih ⊢
    rw [h, ih]
    simp

/-- Where a record may begin, a character other than LF is read as at the start of a
field of an empty record. -/
theorem read_recordStart (records : Grid) (n : Nat) (c : Char) (cs : List Char)
    (hc : c ≠ '\n') :
    Reader.readRecords ReadState.recordStart [] [] records n (c :: cs) =
      Reader.readRecords ReadState.fieldStart [] [] records n (c :: cs) := by
  rw [Reader.readRecords, if_neg hc]
  conv_rhs => rw [Reader.readRecords, if_neg hc]
  simp

/-- The text of a record with a cell, other than the record of one empty cell, does not
start with LF. -/
theorem recordChars_head (row : Row) (hne : row ≠ []) (hblank : row ≠ [""]) :
    ∃ (c : Char) (cs : List Char), recordChars row = c :: cs ∧ c ≠ '\n' := by
  cases row with
  | nil => exact absurd rfl hne
  | cons f fs =>
    cases hq : Writer.fieldNeedsQuotes ⟨',', false, ""⟩ f with
    | true =>
      refine ⟨'"', (Writer.quotedBody false f.data ++ ['"']) ++ fieldsTailChars fs ++ ['\n'],
        ?_, by decide⟩
      rw [recordChars, csvField_of_needsQuotes f hq]
      simp
    | false =>
      have hns := no_special_of_not_needsQuotes f hq
      rw [recordChars, csvField_of_not_needsQuotes f hq]
      cases hdata : f.data with
      | nil =>
        cases fs with
        | nil =>
          have hf : f = "" := String.ext hdata
          subst hf
          exact absurd rfl hblank
        | cons f1 fs1 =>
          refine ⟨',', (csvField f1).data ++ fieldsTailChars fs1 ++ ['\n'], ?_, by decide⟩
          simp [fieldsTailChars, List.flatMap_cons]
      | cons c cs =>
        rw [hdata] at hns
        exact ⟨c, cs ++ fieldsTailChars fs ++ ['\n'], by simp,
          (hns c (List.mem_cons_self _ _)).2.1⟩

theorem read_record (row : Row) (hne : row ≠ []) (hblank : row ≠ [""]) (records : Grid)
    (n : Nat) (rest : List Char) :
    Reader.readRecords ReadState.recordStart [] [] records n (recordChars row ++ rest) =
      match Reader.endRecord row records n with
      | Except.error err => Except.error err
      | Except.ok (records1, n1) =>
        Reader.readRecords ReadState.recordStart [] [] records1 n1 rest := by
  obtain ⟨c, cs, hcs, hc⟩ := recordChars_head row hne hblank
  have h1 : Reader.readRecords ReadState.recordStart [] [] records n (recordChars row ++ rest) =
      Reader.readRecords ReadState.fieldStart [] [] records n (recordChars row ++ rest) := by
    rw [hcs, List.cons_append]
    exact read_recordStart records n c (cs ++ rest) hc
  rw [h1]
  cases row with
  | nil => exact absurd rfl hne
  | cons f fs =>
    have h := read_fields_tail records n rest fs f []
    simpa [recordChars, List.append_assoc] using h

theorem endRecord_ok (row : Row) (records : Grid) (n k : Nat) (hk : 0 < k)
    (hlen : row.length = k) (hn : n = 0 ∨ n = k) :
    Reader.endRecord row records n = Except.ok (records ++ [row], k) := by
  unfold Reader.endRecord
  rcases hn with h | h
  · subst h
    simp [hlen]
  · subst h
    simp [hk, hlen]

theorem read_grid : ∀ (g : Grid) (records : Grid) (n k : Nat), 0 < k → (n = 0 ∨ n = k) →
    (∀ row ∈ g, row.length = k) → (∀ row ∈ g, row ≠ [""]) →
    Reader.readRecords ReadState.recordStart [] [] records n (gridChars g) =
      Except.ok (records ++ g)
  | [], records, n, k, _, _, _, _ => by simp [gridChars, Reader.readRecords]
  | row :: g, records, n, k, hk, hn, hlen, hblank => by
    have hrow := hlen row (List.mem_cons_self _ _)
    have hne : row ≠ [] := by
      intro he
      subst he
      simp at hrow
      omega
    have ih := read_grid g (records ++ [row]) k k hk (Or.inr rfl)
      (fun r hr => hlen r (List.mem_cons_of_mem _ hr))
      (fun r hr => hblank r (List.mem_cons_of_mem _ hr))
    have hg : gridChars (row :: g) = recordChars row ++ gridChars g := by
      simp [gridChars, List.flatMap_cons]
    rw [hg, read_record row hne (hblank row (List.mem_cons_self _ _)),
      endRecord_ok row records n k hk hrow hn]
    simp only []
    rw [ih]
    simp

theorem normalizeLines_cons (c : Char) (cs : List Char) (hc : c ≠ '\r') :
    Reader.normalizeLines (c :: cs) = c :: Reader.normalizeLines cs := by
  rw [Reader.normalizeLines.eq_def]
  simp only [if_neg hc]

theorem normalizeLines_cr (c1 : Char) (cs1 : List Char) (hc : c1 ≠ '\n') :
    Reader.normalizeLines ('\r' :: c1 :: cs1) = '\r' :: Reader.normalizeLines (c1 :: cs1) := by
  rw [Reader.normalizeLines.eq_def]
  simp only [if_true, if_neg hc]

theorem normalizeLines_append (rest : List Char) : ∀ (l : List Char), (∀ c ∈ l, c ≠ '\r') →
    Reader.normalizeLines (l ++ rest) = l ++ Reader.normalizeLines rest
  | [], _ => rfl
  | c :: l, h => by
    rw [List.cons_append, normalizeLines_cons c _ (h c (List.mem_cons_self _ _)),
      normalizeLines_append rest l (fun c' hc' => h c' (List.mem_cons_of_mem _ hc'))]
    rfl

theorem crlfFree_tail (c : Char) (cs : List Char) (h : crlfFree (c :: cs) = true) :
    crlfFree cs = true := by
  rw [crlfFree.eq_def] at h
  simp only [Bool.and_eq_true] at h
  exact h.2

/-- The inside of a quoted field, up to the closing quote, is left as it is by the line
reading when the cell has no CR before LF. -/
theorem normalizeLines_quotedBody (rest : List Char) : ∀ (body : List Char),
    crlfFree body = true →
    Reader.normalizeLines (Writer.quotedBody false body ++ '"' :: rest) =
      Writer.quotedBody false body ++ '"' :: Reader.normalizeLines rest
  | [], _ => by
    simp only [Writer.quotedBody, List.nil_append]
    exact normalizeLines_cons '"' rest (by decide)
  | c :: body, h => by
    have ih := normalizeLines_quotedBody rest body (crlfFree_tail c body h)
    rw [quotedBody_cons]
    by_cases h1 : c = '"'
    · subst h1
      simp only [if_true, List.cons_append, List.nil_append, List.append_assoc]
      rw [normalizeLines_cons '"' _ (by decide), normalizeLines_cons '"' _ (by decide), ih]
    · simp only [h1, if_false, List.cons_append, List.nil_append, List.append_assoc]
      by_cases h2 : c = '\r'
      · subst h2
        cases body with
        | nil =>
          simp only [Writer.quotedBody, List.nil_append] at ih ⊢
          rw [normalizeLines_cr '"' rest (by decide), ih]
        | cons c2 body2 =>
          have hc2 : c2 ≠ '\n' := by
            intro he
            subst he
            simp [crlfFree] at h
          rw [quotedBody_cons] at ih ⊢
          by_cases h3 : c2 = '"'
          · subst h3
            simp only [if_true, List.cons_append, List.nil_append, List.append_assoc] at ih ⊢
            rw [normalizeLines_cr '"' _ (by decide), ih]
          · simp only [h3, if_false, List.cons_append, List.nil_append, List.append_assoc] at ih ⊢
            rw [normalizeLines_cr c2 _ hc2, ih]
      · rw [normalizeLines_cons c _ h2, ih]

theorem normalizeLines_csvField (field : String) (rest : List Char)
    (h : crlfFree field.data = true) :
    Reader.normalizeLines ((csvField field).data ++ rest) =
      (csvField field).data ++ Reader.normalizeLines rest := by
  cases hq : Writer.fieldNeedsQuotes ⟨',', false, ""⟩ field with
  | false =>
    rw [csvField_of_not_needsQuotes field hq]
    exact normalizeLines_append rest field.data
      (fun c hc => (no_special_of_not_needsQuotes field hq c hc).2.2.2)
  | true =>
    rw [csvField_of_needsQuotes field hq]
    simp only [List.cons_append, List.append_assoc, List.singleton_append, List.nil_append]
    rw [normalizeLines_cons '"' _ (by decide), normalizeLines_quotedBody rest field.data h]

theorem normalizeLines_fieldsTail (rest : List Char) : ∀ (fs : Row),
    (∀ f ∈ fs, crlfFree f.data = true) →
    Reader.normalizeLines (fieldsTailChars fs ++ rest) =
      fieldsTailChars fs ++ Reader.normalizeLines rest
  | [], _ => by simp [fieldsTailChars]
  | f :: fs, h => by
    have ih := normalizeLines_fieldsTail rest fs (fun f' hf' => h f' (List.mem_cons_of_mem _ hf'))
    simp only [fieldsTailChars, List.flatMap_cons, List.cons_append, List.append_assoc] at ih ⊢
    rw [normalizeLines_cons ',' _ (by decide),
      normalizeLines_csvField f _ (h f (List.mem_cons_self _ _)), ih]

theorem normalizeLines_record (row : Row) (rest : List Char)
    (h : ∀ f ∈ row, crlfFree f.data = true) :
    Reader.normalizeLines (recordChars row ++ rest) =
      recordChars row ++ Reader.normalizeLines rest := by
  cases row with
  | nil =>
    simp only [recordChars, List.singleton_append]
    exact normalizeLines_cons '\n' rest (by decide)
  | cons f fs =>
    simp only [recordChars, List.append_assoc, List.singleton_append]
    rw [normalizeLines_csvField f _ (h f (List.mem_cons_self _ _)),
      normalizeLines_fieldsTail _ fs (fun f' hf' => h f' (List.mem_cons_of_mem _ hf')),
      normalizeLines_cons '\n' rest (by decide)]

theorem normalizeLines_grid : ∀ (g : Grid), (∀ row ∈ g, ∀ f ∈ row, crlfFree f.data = true) →
    Reader.normalizeLines (gridChars g) = gridChars g
  | [], _ => by simp [gridChars, Reader.normalizeLines]
  | row :: g, h => by
    have ih := normalizeLines_grid g (fun r hr => h r (List.mem_cons_of_mem _ hr))
    have hg : gridChars (row :: g) = recordChars row ++ gridChars g := by
      simp [gridChars, List.flatMap_cons]
    rw [hg, normalizeLines_record row _ (h row (List.mem_cons_self _ _)), ih]

/-! ## The claims on the tree walk -/

/-- C1: when only element nodes have children in the tree rooted at `n`, the grid
`getTableData` produces from the empty grid is the list, in pre-order document order, of
the rows built from the descendants of `n` with data `tr`, the empty rows left out, at
whatever depth the `tr` lies; building it fails exactly when building one of those rows
fails, and when every `td`/`th` child of those `tr` has a child the grid is produced and
its rows are the cells read off the direct children. -/
theorem getTableData_document_order (n : Node) (h : onlyElementsHaveChildren n = true) :
    getTableData n [] = documentRows n ∧
    ((∀ c ∈ descendants n, c.Data = "tr" →
        ∀ c1 ∈ c.children, (c1.Data = "td" ∨ c1.Data = "th") → c1.children ≠ []) →
      getTableData n [] =
        some ((((descendants n).filter (fun c => decide (c.Data = "tr"))).map directCells).filter
          (fun row => decide (row ≠ [])))) := by
  have hmain : getTableData n [] = documentRows n := by
    rw [getTableData_eq_trRows n [] h, documentRows]
    cases trRows (descendants n) <;> simp
  refine ⟨hmain, fun hcells => ?_⟩
  rw [hmain, documentRows, trRows, rowsBuilt_eq_map]
  · rfl
  · intro c hc
    rw [List.mem_filter] at hc
    exact hcells c hc.1 (by simpa using hc.2)

/-- C1 at a table whose rows 1, 2, 3 lie inside `thead` and `tbody`: they come out in
the order 1, 2, 3. -/
theorem getTableData_document_order_witness :
    onlyElementsHaveChildren nestedRowsTable = true ∧
    getTableData nestedRowsTable [] = documentRows nestedRowsTable ∧
    getTableData nestedRowsTable [] = some [["1"], ["2"], ["3"]] :=
  ⟨by decide, (getTableData_document_order nestedRowsTable (by decide)).1, by decide⟩

/-- C2: for a `tr` whose direct children with data `td` or `th` are element nodes with
at least one child, the row built is the list, in child order, of the data of the first
child of each direct child with data `td` or `th`, and nothing else; visiting the `tr`
appends that row when it has a cell. -/
theorem row_of_direct_cells (c : Node)
    (h : ∀ c1 ∈ c.children, (c1.Data = "td" ∨ c1.Data = "th") →
      c1.type = NodeType.ElementNode ∧ c1.children ≠ []) :
    getTableData.row c.children [] = some (directCells c) ∧
    (c.Data = "tr" → ∀ g : Grid, getTableData.visit c g =
      some (if directCells c = [] then g else g ++ [directCells c])) := by
  have hrow : getTableData.row c.children [] = some (directCells c) := by
    rw [row_eq_cells c.children [] (fun c1 hc1 hd => (h c1 hc1 hd).2), directCells_children]
    rfl
  refine ⟨hrow, fun htr g => ?_⟩
  unfold getTableData.visit
  rw [if_pos htr, hrow]
  cases directCells c <;> simp

/-- C2 at a `tr` with a two-child `td`, a text child, a `span` around a deeper `td`, and
a `th`: the row is `x`, `z`. -/
theorem row_of_direct_cells_witness :
    (∀ c1 ∈ mixedRow.children, (c1.Data = "td" ∨ c1.Data = "th") →
      c1.type = NodeType.ElementNode ∧ c1.children ≠ []) ∧
    getTableData.row mixedRow.children [] = some ["x", "z"] :=
  have h : ∀ c1 ∈ mixedRow.children, (c1.Data = "td" ∨ c1.Data = "th") →
      c1.type = NodeType.ElementNode ∧ c1.children ≠ [] := by
    simp [mixedRow, element, text, children_mk, Node.Data, Node.type, Node.children]
  ⟨h, (row_of_direct_cells mixedRow h).1.trans (by decide)⟩

/-- C3: when the parsed document has no element node with tag `table`, `convertToCsv`
returns the error `no table` and the empty CSV string. -/
theorem convertToCsv_no_table (Parse : String → Except GoError Node) (htmlContent : String)
    (doc : Node) (hp : Parse htmlContent = Except.ok doc)
    (hn : ∀ m ∈ preorder doc, ¬ (m.type = NodeType.ElementNode ∧ m.Data = "table")) :
    convertToCsv Parse htmlContent = some ("", some (errors_New "no table")) := by
  have hfind : (preorder doc).find? isTableElement = none := by
    rw [List.find?_eq_none]
    intro m hm
    simpa [isTableElement] using hn m hm
  unfold convertToCsv
  rw [hp]
  simp only []
  rw [findTable_eq_find doc, hfind]

/-- C3 at a document whose only nodes with data `table` are a text and a comment. -/
theorem convertToCsv_no_table_witness :
    (∀ m ∈ preorder noTableDoc, ¬ (m.type = NodeType.ElementNode ∧ m.Data = "table")) ∧
    convertToCsv (fun _ => Except.ok noTableDoc) "<p>table</p><!--table-->" =
      some ("", some (errors_New "no table")) :=
  have hn : ∀ m ∈ preorder noTableDoc, ¬ (m.type = NodeType.ElementNode ∧ m.Data = "table") := by
    simp [noTableDoc, document, element, text, comment, preorder, preorderList, Node.type,
      Node.Data]
  ⟨hn, convertToCsv_no_table _ _ noTableDoc rfl hn⟩

/-- C4: `findTable n` reports found exactly when `n` or a descendant is an element node
with tag `table`; the node returned is then the first such node in pre-order, an element;
a node that is not an element is never the match, whatever its data, and the search goes
on through its children. -/
theorem findTable_first_in_preorder (n : Node) :
    (findTable n =
      match (preorder n).find? isTableElement with
      | some m => (m, true)
      | none => (n, false)) ∧
    ((findTable n).2 = true ↔
      ∃ m ∈ preorder n, m.type = NodeType.ElementNode ∧ m.Data = "table") ∧
    ((findTable n).2 = true →
      (findTable n).1.type = NodeType.ElementNode ∧ (findTable n).1.Data = "table") ∧
    (n.type ≠ NodeType.ElementNode →
      findTable n =
        match (descendants n).find? isTableElement with
        | some m => (m, true)
        | none => (n, false)) := by
  have hmain := findTable_eq_find n
  refine ⟨hmain, ?_, ?_, ?_⟩
  · rw [hmain]
    cases hf : (preorder n).find? isTableElement with
    | none =>
      rw [List.find?_eq_none] at hf
      simp only [Bool.false_eq_true, false_iff, not_exists, not_and]
      intro m hm ht hd
      exact hf m hm (by simp [isTableElement, ht, hd])
    | some m =>
      simp only [true_iff]
      refine ⟨m, List.mem_of_find?_eq_some hf, ?_⟩
      simpa [isTableElement] using List.find?_some hf
  · rw [hmain]
    cases hf : (preorder n).find? isTableElement with
    | none => simp
    | some m =>
      intro _
      simpa [isTableElement] using List.find?_some hf
  · intro hne
    rw [hmain]
    cases n with
    | mk t d cs =>
      have hfalse : isTableElement (Node.mk t d cs) = false := by
        have : t ≠ NodeType.ElementNode := hne
        simp [isTableElement, Node.type, this]
      simp only [preorder, List.find?_cons, hfalse, descendants, children_mk]

/-- C5, at the table `<table><tr><td></td></tr></table>`: `getTableData` panics on the
`td` without a child, where the claim has it complete with the row `[""]`. -/
theorem getTableData_empty_cell_panics :
    getTableData emptyCellTable [] = none ∧
    convertToCsv (fun _ => Except.ok (document [emptyCellTable]))
      "<table><tr><td></td></tr></table>" = none := by
  constructor <;> decide

/-- C6: from a grid whose rows all have a cell, every row of the grid after
`getTableData n` has a cell; visiting a `tr` without a `td`/`th` child leaves the grid as
it is; the table with `<tr></tr>` and `<tr><td>x</td></tr>` gives the grid `[[x]]`. -/
theorem getTableData_rows_nonempty :
    (∀ (n : Node) (g g1 : Grid), (∀ r ∈ g, r ≠ []) → getTableData n g = some g1 →
      ∀ r ∈ g1, r ≠ []) ∧
    (∀ (c : Node) (g : Grid), (∀ c1 ∈ c.children, ¬ (c1.Data = "td" ∨ c1.Data = "th")) →
      getTableData.visit c g = some g) ∧
    getTableData emptyRowTable [] = some [["x"]] := by
  refine ⟨getTableData_nonempty, ?_, by decide⟩
  intro c g hc
  have hrow : ∀ (cs : List Node) (row : Row),
      (∀ c1 ∈ cs, ¬ (c1.Data = "td" ∨ c1.Data = "th")) → getTableData.row cs row = some row := by
    intro cs
    induction cs with
    | nil => intro row _; rfl
    | cons c1 rest ih =>
      intro row hcs
      rw [getTableData.row, if_neg (hcs c1 (List.mem_cons_self _ _))]
      exact ih row (fun c' hc' => hcs c' (List.mem_cons_of_mem _ hc'))
  unfold getTableData.visit
  rw [hrow c.children [] hc]
  simp

/-- C6 at the table with one empty and one populated row, from the empty grid. -/
theorem getTableData_rows_nonempty_witness :
    (∀ r ∈ ([] : Grid), r ≠ []) ∧ getTableData emptyRowTable [] = some [["x"]] ∧
    (∀ r ∈ ([["x"]] : Grid), r ≠ []) :=
  ⟨by simp, by decide,
    getTableData_rows_nonempty.1 emptyRowTable [] [["x"]] (by simp) (by decide)⟩

/-- C7: the output of `convertToCsv` is the CSV text of the grid `getTableData` extracts
from the first table element in pre-order, and of nothing else: when only element nodes
have children inside that table, the rows are those built from the `tr` descendants of
that table. -/
theorem convertToCsv_first_table_only (Parse : String → Except GoError Node)
    (htmlContent : String) (doc table : Node) (hp : Parse htmlContent = Except.ok doc)
    (ht : (preorder doc).find? isTableElement = some table) :
    convertToCsv Parse htmlContent = (getTableData table []).map getTableInCsv ∧
    (onlyElementsHaveChildren table = true →
      convertToCsv Parse htmlContent = (documentRows table).map getTableInCsv) := by
  have hmain : convertToCsv Parse htmlContent = (getTableData table []).map getTableInCsv := by
    unfold convertToCsv
    rw [hp]
    simp only []
    rw [findTable_eq_find doc, ht]
    simp only []
    cases getTableData table [] <;> rfl
  refine ⟨hmain, fun hwf => ?_⟩
  rw [hmain, getTableData_eq_trRows table [] hwf, documentRows]
  cases trRows (descendants table) <;> simp

/-- C7 at a document with two sibling tables: only the row `a` of the first one is in
the output. -/
theorem convertToCsv_first_table_only_witness :
    (preorder twoTablesDoc).find? isTableElement = some firstTable ∧
    convertToCsv (fun _ => Except.ok twoTablesDoc) "" =
      (getTableData firstTable []).map getTableInCsv ∧
    convertToCsv (fun _ => Except.ok twoTablesDoc) "" = some ("a\n", none) :=
  ⟨rfl, (convertToCsv_first_table_only _ "" twoTablesDoc firstTable rfl rfl).1, by decide⟩

/-! ## The claims on the CSV text -/

/-- C8, as stated, fails at the grid with the one cell ` a`: the cell has no comma, no
double quote and no line break, and `getTableInCsv` writes it between double quotes. -/
theorem getTableInCsv_leading_space_quoted :
    hasSpecial " a" = false ∧
    getTableInCsv [[" a"]] = ("\" a\"\n", none) ∧
    getTableInCsv [[" a"]] ≠
      (String.join ([[" a"]].map (fun row => ",".intercalate row ++ "\n")), none) := by
  refine ⟨by decide, by decide, by decide⟩

/-- C8, amended: for a grid whose cells have no comma, double quote or line break, do
not start with a space character and are not `\.`, `getTableInCsv` returns without error
the rows in order, each as its cells as they are, joined by `,`, and LF. -/
theorem getTableInCsv_plain_cells (g : Grid) (h : ∀ row ∈ g, ∀ f ∈ row, plainCell f = true) :
    getTableInCsv g = (String.join (g.map (fun row => ",".intercalate row ++ "\n")), none) := by
  rw [getTableInCsv_eq_join]
  have hrows : g.map (fun row => ",".intercalate (row.map csvField) ++ "\n") =
      g.map (fun row => ",".intercalate row ++ "\n") := by
    apply List.map_congr_left
    intro row hrow
    have hcells : row.map csvField = row := by
      conv_rhs => rw [← List.map_id row]
      apply List.map_congr_left
      intro f hf
      exact csvField_of_not_needsQuotes f (needsQuotes_of_plainCell f (h row hrow f hf))
    rw [hcells]
  rw [hrows]

/-- C8, amended, at the grids `[[Company,Country],[Acme,US]]` and `[[a,b],[c,d]]`. -/
theorem getTableInCsv_plain_cells_witness :
    (∀ row ∈ ([["Company", "Country"], ["Acme", "US"]] : Grid), ∀ f ∈ row, plainCell f = true) ∧
    getTableInCsv [["Company", "Country"], ["Acme", "US"]] =
      ("Company,Country\nAcme,US\n", none) ∧
    getTableInCsv [["a", "b"], ["c", "d"]] = ("a,b\nc,d\n", none) :=
  have h : ∀ row ∈ ([["Company", "Country"], ["Acme", "US"]] : Grid),
      ∀ f ∈ row, plainCell f = true := by decide
  ⟨h, (getTableInCsv_plain_cells _ h).trans (by decide), by decide⟩

/-- C9: in the text `getTableInCsv` returns for a grid, every cell with a comma, a double
quote or a line break in it stands between double quotes, its double quotes doubled and
its other characters unchanged; the cell `Acme, Inc.` is written `"Acme, Inc."`. -/
theorem getTableInCsv_quotes_special_cells (g : Grid) :
    getTableInCsv g =
      (String.join (g.map (fun row =>
        ",".intercalate
          (row.map (fun f => if hasSpecial f = true then "\"" ++ doubleQuotes f ++ "\"" else csvField f))
          ++ "\n")), none) ∧
    getTableInCsv [["Acme, Inc."]] = ("\"Acme, Inc.\"\n", none) := by
  refine ⟨?_, by decide⟩
  rw [getTableInCsv_eq_join]
  have hf : (fun f => if hasSpecial f = true then "\"" ++ doubleQuotes f ++ "\"" else csvField f) =
      csvField := by
    funext f
    by_cases h : hasSpecial f = true
    · rw [if_pos h, csvField_of_hasSpecial f h]
    · rw [if_neg h]
  rw [hf]

/-- C10, as stated, fails at the grid `[[""]]`, which `getTableData` builds from
`<table><tr><td><!----></td></tr></table>`: the grid is written as one line with nothing
on it, and the reader reads no record from that text. It fails as well at a grid with a
row of one cell and a row of two (the reader reports `ErrFieldCount`), at a cell with CR
LF in it (read back with LF alone), and at the row without a cell. -/
theorem getTableInCsv_blank_line_not_read_back :
    getTableData emptyCommentCellTable [] = some [[""]] ∧
    getTableInCsv [[""]] = ("\n", none) ∧
    Reader.ReadAll (getTableInCsv [[""]]).1 = Except.ok [] ∧
    Reader.ReadAll (getTableInCsv [[""]]).1 ≠ Except.ok [[""]] ∧
    Reader.ReadAll (getTableInCsv [["a"], ["b", "c"]]).1 = Except.error ErrFieldCount ∧
    Reader.ReadAll (getTableInCsv [["a\r\nb"]]).1 = Except.ok [["a\nb"]] ∧
    Reader.ReadAll (getTableInCsv [[]]).1 = Except.ok [] := by
  refine ⟨?_, ?_, ?_, ?_, ?_, ?_, ?_⟩ <;> decide

/-- C10, amended: for a grid whose rows all have the same number of cells, at least one,
none of them the row of one empty cell, and whose cells have no CR immediately before
LF, whatever else the cells hold, `getTableInCsv` returns without error and the reader
reads the grid back from its text. -/
theorem ReadAll_getTableInCsv (g : Grid) (hne : ∀ row ∈ g, row ≠ [])
    (hblank : ∀ row ∈ g, row ≠ [""])
    (hlen : ∀ r1 ∈ g, ∀ r2 ∈ g, r1.length = r2.length)
    (hcrlf : ∀ row ∈ g, ∀ f ∈ row, crlfFree f.data = true) :
    (getTableInCsv g).2 = none ∧ Reader.ReadAll (getTableInCsv g).1 = Except.ok g := by
  rw [getTableInCsv_eq_gridChars]
  refine ⟨rfl, ?_⟩
  unfold Reader.ReadAll
  simp only []
  rw [normalizeLines_grid g hcrlf]
  cases g with
  | nil => simp [gridChars, Reader.readRecords]
  | cons row g1 =>
    have hk : 0 < row.length :=
      List.length_pos.mpr (hne row (List.mem_cons_self _ _))
    have h := read_grid (row :: g1) [] 0 row.length hk (Or.inl rfl)
      (fun r hr => hlen r hr row (List.mem_cons_self _ _)) hblank
    simpa using h

/-- C10, amended, at a grid of two rows of three cells, with a comma, a double quote, a
line break, an empty cell, a cell of one space and a cell that ends in CR. -/
theorem ReadAll_getTableInCsv_witness :
    (∀ row ∈ ([["a, b", "x\"y", "l1\nl2"], ["", " ", "c\r"]] : Grid), row ≠ []) ∧
    (∀ row ∈ ([["a, b", "x\"y", "l1\nl2"], ["", " ", "c\r"]] : Grid), row ≠ [""]) ∧
    Reader.ReadAll (getTableInCsv [["a, b", "x\"y", "l1\nl2"], ["", " ", "c\r"]]).1 =
      Except.ok [["a, b", "x\"y", "l1\nl2"], ["", " ", "c\r"]] :=
  ⟨by decide, by decide,
    (ReadAll_getTableInCsv [["a, b", "x\"y", "l1\nl2"], ["", " ", "c\r"]]
      (by decide) (by decide) (by decide) (by decide)).2⟩

/-! ## Lemmas on lines, empty tables and the handler -/

theorem mem_quotedBody : ∀ (l : List Char) (c : Char),
    c ∈ Writer.quotedBody false l → c = '"' ∨ c ∈ l
  | [], c, h => by simp [Writer.quotedBody] at h
  | a :: rest, c, h => by
    rw [quotedBody_cons, List.mem_append] at h
    rcases h with h | h
    · by_cases ha : a = '"'
      · rw [if_pos ha] at h
        left
        simpa using h
      · rw [if_neg ha] at h
        right
        simp only [List.mem_singleton] at h
        simp [h]
    · rcases mem_quotedBody rest c h with h1 | h1
      · exact Or.inl h1
      · exact Or.inr (List.mem_cons_of_mem _ h1)

theorem mem_csvField (field : String) (c : Char) (h : c ∈ (csvField field).data) :
    c = '"' ∨ c ∈ field.data := by
  cases hq : Writer.fieldNeedsQuotes ⟨',', false, ""⟩ field with
  | false =>
    rw [csvField_of_not_needsQuotes field hq] at h
    exact Or.inr h
  | true =>
    rw [csvField_of_needsQuotes field hq] at h
    simp only [List.mem_cons, List.mem_append, List.mem_singleton, List.not_mem_nil,
      or_false] at h
    rcases h with h | h | h
    · exact Or.inl h
    · exact mem_quotedBody field.data c h
    · exact Or.inl h

theorem mem_fieldsTailChars (fields : Row) (c : Char) (h : c ∈ fieldsTailChars fields) :
    c = ',' ∨ c = '"' ∨ ∃ f ∈ fields, c ∈ f.data := by
  unfold fieldsTailChars at h
  rw [List.mem_flatMap] at h
  obtain ⟨f, hf, hc⟩ := h
  rw [List.mem_cons] at hc
  rcases hc with hc | hc
  · exact Or.inl hc
  · rcases mem_csvField f c hc with h1 | h1
    · exact Or.inr (Or.inl h1)
    · exact Or.inr (Or.inr ⟨f, hf, h1⟩)

/-- The text of a record is a body and one LF; the body holds commas, double quotes and
characters of the cells. -/
theorem recordChars_body (row : Row) :
    ∃ body : List Char, recordChars row = body ++ ['\n'] ∧
      ∀ c ∈ body, c = ',' ∨ c = '"' ∨ ∃ f ∈ row, c ∈ f.data := by
  cases row with
  | nil => exact ⟨[], rfl, by simp⟩
  | cons f fs =>
    refine ⟨(csvField f).data ++ fieldsTailChars fs, rfl, ?_⟩
    intro c hc
    rw [List.mem_append] at hc
    rcases hc with hc | hc
    · rcases mem_csvField f c hc with h1 | h1
      · exact Or.inr (Or.inl h1)
      · exact Or.inr (Or.inr ⟨f, List.mem_cons_self _ _, h1⟩)
    · rcases mem_fieldsTailChars fs c hc with h1 | h1 | ⟨f1, hf1, h1⟩
      · exact Or.inl h1
      · exact Or.inr (Or.inl h1)
      · exact Or.inr (Or.inr ⟨f1, List.mem_cons_of_mem _ hf1, h1⟩)

theorem noLineBreak_not_mem (field : String) (h : noLineBreak field = true) :
    '\n' ∉ field.data ∧ '\r' ∉ field.data := by
  unfold noLineBreak at h
  simp only [Bool.not_eq_true', List.any_eq_false, Bool.or_eq_true, beq_iff_eq, not_or] at h
  exact ⟨fun hm => (h _ hm).1 rfl, fun hm => (h _ hm).2 rfl⟩

theorem recordChars_one_line (row : Row) (h : ∀ f ∈ row, noLineBreak f = true) :
    (recordChars row).count '\n' = 1 ∧ '\r' ∉ recordChars row := by
  obtain ⟨body, hb, hmem⟩ := recordChars_body row
  have hn : '\n' ∉ body := by
    intro hm
    rcases hmem _ hm with h1 | h1 | ⟨f, hf, h1⟩
    · exact absurd h1 (by decide)
    · exact absurd h1 (by decide)
    · exact (noLineBreak_not_mem f (h f hf)).1 h1
  have hr : '\r' ∉ body := by
    intro hm
    rcases hmem _ hm with h1 | h1 | ⟨f, hf, h1⟩
    · exact absurd h1 (by decide)
    · exact absurd h1 (by decide)
    · exact (noLineBreak_not_mem f (h f hf)).2 h1
  rw [hb]
  constructor
  · rw [List.count_append, List.count_eq_zero_of_not_mem hn]
    rfl
  · intro hm
    rw [List.mem_append] at hm
    rcases hm with hm | hm
    · exact hr hm
    · simp at hm

theorem gridChars_lines : ∀ (g : Grid), (∀ row ∈ g, ∀ f ∈ row, noLineBreak f = true) →
    (gridChars g).count '\n' = g.length ∧ '\r' ∉ gridChars g
  | [], _ => by simp [gridChars]
  | row :: g, h => by
    have h1 := recordChars_one_line row (h row (List.mem_cons_self _ _))
    have h2 := gridChars_lines g (fun r hr => h r (List.mem_cons_of_mem _ hr))
    have hg : gridChars (row :: g) = recordChars row ++ gridChars g := by
      simp [gridChars, List.flatMap_cons]
    rw [hg]
    constructor
    · rw [List.count_append, h1.1, h2.1, List.length_cons, Nat.add_comm]
    · intro hm
      rw [List.mem_append] at hm
      rcases hm with hm | hm
      · exact h1.2 hm
      · exact h2.2 hm

theorem gridChars_ends_lf : ∀ (g : Grid), g ≠ [] →
    ∃ front : List Char, gridChars g = front ++ ['\n']
  | [], h => absurd rfl h
  | [row], _ => by
    obtain ⟨body, hb, _⟩ := recordChars_body row
    exact ⟨body, by simp [gridChars, List.flatMap_cons, hb]⟩
  | row :: row1 :: g, _ => by
    obtain ⟨front, hf⟩ := gridChars_ends_lf (row1 :: g) (by simp)
    refine ⟨recordChars row ++ front, ?_⟩
    have hg : gridChars (row :: row1 :: g) = recordChars row ++ gridChars (row1 :: g) := by
      simp [gridChars, List.flatMap_cons]
    rw [hg, hf, List.append_assoc]

theorem row_of_no_cells : ∀ (cs : List Node) (row : Row),
    (∀ c1 ∈ cs, ¬ (c1.Data = "td" ∨ c1.Data = "th")) → getTableData.row cs row = some row
  | [], _, _ => rfl
  | c1 :: rest, row, h => by
    rw [getTableData.row, if_neg (h c1 (List.mem_cons_self _ _))]
    exact row_of_no_cells rest row (fun c hc => h c (List.mem_cons_of_mem _ hc))

theorem visit_of_no_cells (c : Node) (g : Grid)
    (h : c.Data = "tr" → ∀ c1 ∈ c.children, ¬ (c1.Data = "td" ∨ c1.Data = "th")) :
    getTableData.visit c g = some g := by
  unfold getTableData.visit
  by_cases hc : c.Data = "tr"
  · rw [if_pos hc, row_of_no_cells c.children [] (h hc)]
    simp
  · rw [if_neg hc]

theorem preorder_eq_cons (c : Node) : preorder c = c :: descendants c := by
  cases c with
  | mk t d cs => simp [preorder, descendants, children_mk]

mutual
theorem getTableData_of_no_cells : ∀ (n : Node) (g : Grid),
    (∀ c ∈ descendants n, c.Data = "tr" →
      ∀ c1 ∈ c.children, ¬ (c1.Data = "td" ∨ c1.Data = "th")) →
    getTableData n g = some g
  | Node.mk t d cs, g, h => by
    unfold getTableData
    by_cases ht : t = NodeType.ElementNode
    · simp only [ht, ne_eq, not_true_eq_false, if_false]
      exact getTableData_loop_of_no_cells cs g h
    · simp [ht]
theorem getTableData_loop_of_no_cells : ∀ (cs : List Node) (g : Grid),
    (∀ c ∈ preorderList cs, c.Data = "tr" →
      ∀ c1 ∈ c.children, ¬ (c1.Data = "td" ∨ c1.Data = "th")) →
    getTableData.loop cs g = some g
  | [], g, _ => rfl
  | c :: cs, g, h => by
    have hpre : preorderList (c :: cs) = c :: (descendants c ++ preorderList cs) := by
      rw [preorderList, preorder_eq_cons, List.cons_append]
    rw [hpre] at h
    have hv := visit_of_no_cells c g (h c (List.mem_cons_self _ _))
    have hc := getTableData_of_no_cells c g
      (fun c' hc' => h c' (List.mem_cons_of_mem _ (List.mem_append_left _ hc')))
    have hcs := getTableData_loop_of_no_cells cs g
      (fun c' hc' => h c' (List.mem_cons_of_mem _ (List.mem_append_right _ hc')))
    rw [getTableData.loop, hv]
    simp only []
    rw [hc]
    simp only []
    exact hcs
end

/-! ## The claims on lines, errors and the handler -/

/-- C11: the text `getTableInCsv` returns is its rows one after the other, each ended by
the same terminator LF; for a grid with a row it ends in LF; and when no cell has a line
break in it, the text has as many LF as the grid has rows and no CR, each row being one
line. -/
theorem getTableInCsv_line_terminated (g : Grid) :
    getTableInCsv g =
      (String.join (g.map (fun row => ",".intercalate (row.map csvField) ++ "\n")), none) ∧
    (g ≠ [] → ∃ front : String, (getTableInCsv g).1 = front ++ "\n") ∧
    ((∀ row ∈ g, ∀ f ∈ row, noLineBreak f = true) →
      (getTableInCsv g).1.data.count '\n' = g.length ∧ '\r' ∉ (getTableInCsv g).1.data) := by
  refine ⟨getTableInCsv_eq_join g, ?_, ?_⟩
  · intro hg
    obtain ⟨front, hf⟩ := gridChars_ends_lf g hg
    refine ⟨String.mk front, ?_⟩
    rw [getTableInCsv_eq_gridChars]
    apply String.ext
    simp [hf, String.data_append]
  · intro h
    rw [getTableInCsv_eq_gridChars]
    exact gridChars_lines g h

/-- C11 at the grid `[[a, b], [c]]`: the text is `a,b`, LF, `c`, LF. -/
theorem getTableInCsv_line_terminated_witness :
    ([["a", "b"], ["c"]] : Grid) ≠ [] ∧
    (∃ front : String, (getTableInCsv [["a", "b"], ["c"]]).1 = front ++ "\n") ∧
    getTableInCsv [["a", "b"], ["c"]] = ("a,b\nc\n", none) :=
  ⟨by decide, (getTableInCsv_line_terminated [["a", "b"], ["c"]]).2.1 (by decide), by decide⟩

/-- C12: for every grid, whatever its rows and cells, `getTableInCsv` returns a nil
error, and so does every `Write` of its writer. -/
theorem getTableInCsv_never_fails (g : Grid) :
    (getTableInCsv g).2 = none ∧
    ∀ (buf : String) (row : Row), ((NewWriter buf).Write row).2 = none := by
  constructor
  · rw [getTableInCsv_eq_gridChars]
  · intro buf row
    unfold NewWriter
    rw [write_std]

/-- C13: whenever `convertToCsv` returns an error, the CSV string it returns with it is
empty; the error is the one of the parser or `no table`. -/
theorem convertToCsv_all_or_nothing (Parse : String → Except GoError Node)
    (htmlContent csvString : String) (err : GoError)
    (h : convertToCsv Parse htmlContent = some (csvString, some err)) :
    csvString = "" ∧ (Parse htmlContent = Except.error err ∨ err = errors_New "no table") := by
  unfold convertToCsv at h
  cases hp : Parse htmlContent with
  | error e =>
    rw [hp] at h
    simp only [Option.some.injEq, Prod.mk.injEq] at h
    exact ⟨h.1.symm, Or.inl (by rw [h.2])⟩
  | ok doc =>
    rw [hp] at h
    simp only [] at h
    cases hf : findTable doc with
    | mk node has =>
      rw [hf] at h
      cases has with
      | false =>
        simp only [Option.some.injEq, Prod.mk.injEq] at h
        exact ⟨h.1.symm, Or.inr h.2.symm⟩
      | true =>
        simp only [] at h
        cases hg : getTableData node [] with
        | none => rw [hg] at h; cases h
        | some contents =>
          rw [hg] at h
          simp only [getTableInCsv_eq_gridChars, Option.some.injEq, Prod.mk.injEq] at h
          exact absurd h.2 (by simp)

/-- C13 at a document without a table. -/
theorem convertToCsv_all_or_nothing_witness :
    convertToCsv (fun _ => Except.ok noTableDoc) "<p>table</p><!--table-->" =
      some ("", some (errors_New "no table")) ∧
    ("" = "" ∧
      ((fun _ => Except.ok noTableDoc : String → Except GoError Node)
          "<p>table</p><!--table-->" = Except.error (errors_New "no table") ∨
        errors_New "no table" = errors_New "no table")) :=
  ⟨by decide,
    convertToCsv_all_or_nothing (fun _ => Except.ok noTableDoc) "<p>table</p><!--table-->" ""
      (errors_New "no table") (by decide)⟩

/-- C14, at the body `content=<p>table</p><!--table-->`, a document without a table:
`convertToCsv` returns the error `no table`, and the handler calls `c.JSON` twice, with
status 400 and the message and then with status 200 and the empty CSV string; it does so
whenever `convertToCsv` returns an error, where the claim has one response and no 200. -/
theorem apiHtmlHandler_error_then_ok :
    convertToCsv (fun _ => Except.ok noTableDoc) "<p>table</p><!--table-->" =
      some ("", some (errors_New "no table")) ∧
    apiHtmlHandler (fun _ => Except.ok noTableDoc) (fun s => Except.ok s)
        (Except.ok "content=<p>table</p><!--table-->") =
      some [⟨400, Payload.error "no table"⟩, ⟨200, Payload.csv ""⟩] ∧
    (∀ (Parse : String → Except GoError Node) (QueryUnescape : String → Except GoError String)
        (body content csvString : String) (err : GoError),
      QueryUnescape (strings_TrimPrefix body "content=") = Except.ok content →
      convertToCsv Parse content = some (csvString, some err) →
      ∃ written : List Response,
        apiHtmlHandler Parse QueryUnescape (Except.ok body) =
          some (written ++
            [⟨StatusBadRequest, Payload.error err.msg⟩, ⟨StatusOK, Payload.csv csvString⟩])) := by
  refine ⟨by decide, by decide, ?_⟩
  intro Parse QueryUnescape body content csvString err hq hc
  unfold apiHtmlHandler
  simp only [hq, hc]
  refine ⟨match isValidHTML Parse (strings_TrimPrefix body "content=") with
    | some err => [⟨StatusBadRequest, Payload.error err.msg⟩]
    | none => [], ?_⟩
  rw [List.append_assoc]
  rfl

/-- C15: the value of a cell with a child is the data of its first child, whatever the
kind of that child and whatever the later children are: the row loop goes on with that
one string appended. -/
theorem cell_value_first_child (t : NodeType) (d : String) (hd : d = "td" ∨ d = "th")
    (firstChild : Node) (others rest : List Node) (row : Row) :
    getTableData.row (Node.mk t d (firstChild :: others) :: rest) row =
      getTableData.row rest (row ++ [firstChild.Data]) := by
  rw [getTableData.row]
  have hd1 : (Node.mk t d (firstChild :: others)).Data = "td" ∨
      (Node.mk t d (firstChild :: others)).Data = "th" := hd
  rw [if_pos hd1]
  rfl

/-- C15 at `<td><b>Name</b></td>`, which gives `b`, and at `<td>a<b>c</b></td>`, which
gives `a`. -/
theorem cell_value_first_child_witness :
    ("td" = "td" ∨ "td" = "th") ∧
    getTableData.row [element "td" [element "b" [text "Name"]]] [] = some ["b"] ∧
    getTableData.row [element "td" [text "a", element "b" [text "c"]]] [] = some ["a"] ∧
    getTableData.row markupRow.children [] = some ["b", "a"] :=
  ⟨Or.inl rfl,
    (cell_value_first_child NodeType.ElementNode "td" (Or.inl rfl)
      (element "b" [text "Name"]) [] [] []).trans (by decide),
    by decide, by decide⟩

/-- C16, at the table `<table><tr><!--td--><td>x</td></tr></table>`: the comment node
with data `td` is taken for a cell and `getTableData` panics on its missing child, where
the claim has the grid `[[x]]`. -/
theorem getTableData_comment_cell_panics :
    (comment "td").type ≠ NodeType.ElementNode ∧
    getTableData commentCellTable [] = none ∧
    convertToCsv (fun _ => Except.ok (document [commentCellTable]))
      "<table><tr><!--td--><td>x</td></tr></table>" = none := by
  refine ⟨by decide, by decide, by decide⟩

/-- C17: when no node with data `tr` below the first table of the parsed document has a
child with data `td` or `th`, `convertToCsv` returns the empty string and a nil error:
the grid is empty and the empty grid is written as the empty text. -/
theorem convertToCsv_empty_table (Parse : String → Except GoError Node) (htmlContent : String)
    (doc table : Node) (hp : Parse htmlContent = Except.ok doc)
    (ht : (preorder doc).find? isTableElement = some table)
    (hrows : ∀ c ∈ descendants table, c.Data = "tr" →
      ∀ c1 ∈ c.children, ¬ (c1.Data = "td" ∨ c1.Data = "th")) :
    convertToCsv Parse htmlContent = some ("", none) ∧
    getTableData table [] = some [] ∧ getTableInCsv [] = ("", none) := by
  have hg := getTableData_of_no_cells table [] hrows
  refine ⟨?_, hg, by decide⟩
  unfold convertToCsv
  rw [hp]
  simp only []
  rw [findTable_eq_find doc, ht]
  simp only []
  rw [hg]
  simp only []
  decide

/-- C17 at a document whose first table has an empty row and a row with only text. -/
theorem convertToCsv_empty_table_witness :
    (preorder emptyRowsDoc).find? isTableElement = some emptyRowsTable ∧
    (∀ c ∈ descendants emptyRowsTable, c.Data = "tr" →
      ∀ c1 ∈ c.children, ¬ (c1.Data = "td" ∨ c1.Data = "th")) ∧
    convertToCsv (fun _ => Except.ok emptyRowsDoc) "" = some ("", none) :=
  have hrows : ∀ c ∈ descendants emptyRowsTable, c.Data = "tr" →
      ∀ c1 ∈ c.children, ¬ (c1.Data = "td" ∨ c1.Data = "th") := by decide
  ⟨rfl, hrows, (convertToCsv_empty_table _ "" emptyRowsDoc emptyRowsTable rfl rfl hrows).1⟩

end HtmlToCsv
